import Mathlib

/-!
# Verification of the neuroglancer core against its specification

Shallow embedding of the parts of the repository that the claims are about:

* `webgl/offscreen` (the unnamed source file): `SizeManaged` surfaces
  (`Renderbuffer`, `TextureBuffer`) with lazy idempotent `resize`, and
  `FramebufferConfiguration` with lazy attachment validation and pixel
  readback.
* `segmentation_user_layer.ts`: `SegmentationUserLayer` construction from a
  persisted JSON state, `toJSON`, `transformPickedValue`, `handleAction`.
* `skeleton/frontend.ts`: `SkeletonLayer.draw`.

GL side effects are abstracted: the observable inputs a GL call would provide
(the framebuffer status, the bytes of a pixel readback) are passed as
arguments, and the observable effects (allocations, status queries, draw
operations) are recorded in the state so that theorems can speak about them.
-/

namespace Neuroglancer

/-! ## GPU surfaces: `SizeManaged`, `Renderbuffer`, `TextureBuffer`

From the unnamed webgl offscreen source file.  A surface tracks its
last-bound width and height, initially `Number.NaN`; `resize` is a no-op when
the surface already has the requested size (compared with JavaScript `===`,
under which `NaN` equals nothing) and otherwise stores the new size and calls
`performResize`, which releases and reallocates the underlying storage
(`renderbufferStorage` for `Renderbuffer`, `resizeTexture` for
`TextureBuffer`).  The model records the storage and an allocation counter
(the allocation counter that the spec makes observable in tests). -/

/-- Which concrete subclass of `SizeManaged` a surface is; `resize` is shared
and `performResize` performs one reallocation in both subclasses. -/
inductive SurfaceKind
  | renderbuffer
  | textureBuffer
deriving DecidableEq, Repr

/-- A JavaScript number that is either a real value or `NaN`; `none` models
`NaN`. -/
abbrev JSNum := Option Int

/-- JavaScript `===` on numbers: `NaN === NaN` is false. -/
def jsNumEq : JSNum → JSNum → Bool
  | some a, some b => a == b
  | _, _ => false

/-- State of a `SizeManaged` GPU surface. -/
structure SizeManaged where
  kind : SurfaceKind
  width : JSNum
  height : JSNum
  /-- The underlying GPU allocation, tagged with the size it was made at. -/
  storage : Option (Int × Int)
  /-- How many storage reallocations have been performed. -/
  allocCount : Nat
deriving DecidableEq, Repr

/-- A freshly constructed surface: `width = height = NaN`, no storage yet. -/
def SizeManaged.init (kind : SurfaceKind) : SizeManaged :=
  { kind := kind, width := none, height := none, storage := none, allocCount := 0 }

/-- Size test `SizeManaged.hasSize`: whether the last-bound size is `(width, height)`. -/
def SizeManaged.hasSize (s : SizeManaged) (w h : Int) : Bool :=
  jsNumEq s.width (some w) && jsNumEq s.height (some h)

/-- Shared `performResize` (both subclasses): release the old storage and allocate
new storage at the current size. -/
def SizeManaged.performResize (s : SizeManaged) : SizeManaged :=
  { s with
    storage := match s.width, s.height with
      | some w, some h => some (w, h)
      | _, _ => none
    allocCount := s.allocCount + 1 }

/-- Lazy `SizeManaged.resize`: no-op when already at the requested size, otherwise
store the new size and reallocate. -/
def SizeManaged.resize (s : SizeManaged) (w h : Int) : SizeManaged :=
  if s.hasSize w h then s
  else SizeManaged.performResize { s with width := some w, height := some h }

/-! ## `FramebufferConfiguration`

The composite framebuffer: a list of color buffers, an optional depth buffer,
a cached `attachmentVerified` flag, and (for observability) a counter of
`checkFramebufferStatus` queries issued.  `bind(width, height)` resizes all
attachments and calls `verifyAttachment`; `verifyAttachment` returns
immediately when the cached flag is set, otherwise queries the framebuffer
status, throws when it is not `FRAMEBUFFER_COMPLETE`, and caches success.
The status a `checkFramebufferStatus` call would report is passed in as an
argument. -/

/-- A GL framebuffer status value. -/
abbrev GLStatus := Nat

/-- The WebGL `FRAMEBUFFER_COMPLETE` constant. -/
def FRAMEBUFFER_COMPLETE : GLStatus := 36053

/-- State of a `FramebufferConfiguration`. -/
structure FramebufferConfiguration where
  colorBuffers : List SizeManaged
  depthBuffer : Option SizeManaged
  width : JSNum
  height : JSNum
  attachmentVerified : Bool
  /-- How many `checkFramebufferStatus` queries have been issued. -/
  statusCheckCount : Nat
deriving DecidableEq, Repr

/-- A freshly constructed configuration: size `NaN`, not yet verified. -/
def FramebufferConfiguration.init (colorBuffers : List SizeManaged)
    (depthBuffer : Option SizeManaged) : FramebufferConfiguration :=
  { colorBuffers := colorBuffers, depthBuffer := depthBuffer,
    width := none, height := none,
    attachmentVerified := false, statusCheckCount := 0 }

/-- Validation `verifyAttachment`, given the status the GL reports for this query:
returns the updated state and the thrown error message, if any.  When the
cached flag is already set it returns without querying. -/
def FramebufferConfiguration.verifyAttachment (s : FramebufferConfiguration)
    (status : GLStatus) : FramebufferConfiguration × Option String :=
  if s.attachmentVerified then (s, none)
  else
    let s' := { s with statusCheckCount := s.statusCheckCount + 1 }
    if status ≠ FRAMEBUFFER_COMPLETE then
      (s', some "Framebuffer configuration not supported")
    else
      ({ s' with attachmentVerified := true }, none)

/-- Binding `bind(width, height)`: store the size, resize and attach the depth and
color buffers, then `verifyAttachment`.  The purely-GL calls with no
observable state (`drawBuffersWEBGL`, `viewport`, attachment binding) are not
recorded. -/
def FramebufferConfiguration.bind (s : FramebufferConfiguration) (w h : Int)
    (status : GLStatus) : FramebufferConfiguration × Option String :=
  let s' := { s with
    width := some w, height := some h,
    depthBuffer := s.depthBuffer.map (fun b => SizeManaged.resize b w h),
    colorBuffers := s.colorBuffers.map (fun b => SizeManaged.resize b w h) }
  s'.verifyAttachment status

/-- A sequence of `bind` calls on the same configuration object, with the
status the GL would report at each one.  A thrown error propagates to the
caller, but the object persists and can be bound again. -/
def FramebufferConfiguration.bindSeq (s : FramebufferConfiguration) (w h : Int) :
    List GLStatus → FramebufferConfiguration
  | [] => s
  | status :: rest => ((s.bind w h status).1).bindSeq w h rest

/-- How many `checkFramebufferStatus` queries a sequence of binds performs on
a not-yet-verified configuration: one per bind up to and including the first
bind whose status is `FRAMEBUFFER_COMPLETE`, after which the result is cached
and no further queries are made. -/
def checksNeeded : List GLStatus → Nat
  | [] => 0
  | status :: rest =>
    if status = FRAMEBUFFER_COMPLETE then 1 else 1 + checksNeeded rest

/-! ## Pixel readback -/

/-- The four channel bytes returned by a `readPixels` readback of the fixed
RGBA8 surface format. -/
structure Pixel where
  r : Nat
  g : Nat
  b : Nat
  a : Nat
deriving DecidableEq, Repr

/-- JavaScript `ToInt32`: reduce modulo `2^32` into `[-2^31, 2^31)`. -/
def toInt32 (n : Int) : Int :=
  let m := n % 4294967296
  if m < 2147483648 then m else m - 4294967296

/-- JavaScript `a << k`: both operands pass through `ToInt32`, the shift count
is taken mod 32, and the result is again a signed 32-bit value. -/
def jsShl (a : Int) (k : Nat) : Int :=
  toInt32 (toInt32 a * (2 ^ (k % 32) : Int))

/-- Readback `readPixel`: binds a single attachment and reads one RGBA8 pixel.  The GL
readback is abstracted: the bytes the GL would deliver are the argument, and
`readPixel` returns them. -/
def FramebufferConfiguration.readPixel (pixel : Pixel) : Pixel := pixel

/-- Packing `readPixelAsUint32`: `result[0] + (result[1] << 8) + (result[2] << 16) +
(result[3] << 24)`, with JavaScript shift semantics. -/
def FramebufferConfiguration.readPixelAsUint32 (pixel : Pixel) : Int :=
  let result := FramebufferConfiguration.readPixel pixel
  (result.r : Int) + jsShl (result.g : Int) 8 + jsShl (result.b : Int) 16 +
    jsShl (result.a : Int) 24

/-! ## Decimal strings

Exact base-10 parsing and formatting of arbitrary-precision naturals, used
for the JSON encoding of 64-bit segment identifiers. -/

/-- Whether a character is an ASCII decimal digit. -/
def isDigitChar (c : Char) : Bool := 48 ≤ c.toNat && c.toNat ≤ 57

/-- The numeric value of an ASCII decimal digit character. -/
def charToDigit (c : Char) : Nat := c.toNat - 48

/-- The ASCII character of a decimal digit. -/
def digitToChar (d : Nat) : Char := Char.ofNat (48 + d)

/-- Parse a nonempty all-digit base-10 string exactly (no precision limit). -/
def parseDecimal (s : String) : Option Nat :=
  if s.data ≠ [] ∧ s.data.all isDigitChar then
    some (Nat.ofDigits 10 (s.data.map charToDigit).reverse)
  else none

/-- Format a natural in base 10. -/
def toDecString (n : Nat) : String :=
  if n = 0 then "0" else ⟨((Nat.digits 10 n).map digitToChar).reverse⟩

/-! ## `Uint64`

Modelled from the spec (§2): the `Uint64` value type of
`neuroglancer/util/uint64` is not under `src/`.  Per the spec it is "a 64-bit
unsigned integer value type used as the universal segment/object id" with
"exact equality, ordering, string parsing/formatting in a given radix, and
stable hashing"; the source holds it as 32-bit `low` and `high` words (the
`segmentation_user_layer.ts` constructor builds `new Uint64(value, 0)`).
The claims exercise only radix 10, which is what the model implements. -/

/-- A 64-bit unsigned identifier as low and high 32-bit words. -/
structure Uint64 where
  low : Nat
  high : Nat
deriving DecidableEq, Repr

/-- The numeric value of a `Uint64`. -/
def Uint64.toNat (x : Uint64) : Nat := x.low + 4294967296 * x.high

/-- The `Uint64` with a given numeric value (reduced to 64 bits). -/
def Uint64.ofNat (n : Nat) : Uint64 :=
  ⟨n % 4294967296, n / 4294967296 % 4294967296⟩

/-- Equality `Uint64.equal`: exact bitwise equality of the two words. -/
def Uint64.equal (a b : Uint64) : Bool := a.low == b.low && a.high == b.high

/-- Modelled from the spec: `Uint64.parseString(s, 10)` — exact radix-10
parsing of a 64-bit unsigned value, failing on a malformed string or a value
exceeding `2^64 - 1`. -/
def Uint64.parseString (s : String) (radix : Nat) : Option Uint64 :=
  if radix = 10 then
    match parseDecimal s with
    | some n => if n < 18446744073709551616 then some (Uint64.ofNat n) else none
    | none => none
  else none

/-! ## Disjoint-set forest over 64-bit identifiers

Modelled from the spec (§4.1): `SharedDisjointUint64Sets` and the underlying
disjoint-set forest of `neuroglancer/shared_disjoint_sets` are not under
`src/`.  The model keeps the partition explicitly as a list of pairwise
disjoint, nonempty equivalence classes over the numeric values of the ids;
per §4.1 an id never inserted is implicitly its own singleton class, `union`
merges two classes, and following the documented option in the spec the
representative returned by `get`/`find` is the minimum value of the class.
Serialization (`toJSON`) emits, for every class, one (representative, member)
pair per non-representative member — "a reversible encoding sufficient to
reconstruct the same partition (not necessarily the same internal tree
shape)". -/

/-- A partition held as a list of (intended: disjoint, nonempty) classes. -/
abbrev IdClasses := List (List Nat)

/-- The stored class of `x`, when `x` has been inserted into one. -/
def classOf (cs : IdClasses) (x : Nat) : Option (List Nat) :=
  cs.find? (fun c => c.contains x)

/-- The class of `x`, defaulting to the implicit singleton. -/
def classOfD (cs : IdClasses) (x : Nat) : List Nat := (classOf cs x).getD [x]

/-- Resolution `get`/`find`: the representative of the class of `x` — the minimum member of
its stored class, or `x` itself if never inserted. -/
def djsGet (cs : IdClasses) (x : Nat) : Nat :=
  match classOf cs x with
  | some c => c.min?.getD x
  | none => x

/-- Merge `union(a, b)`: merge the classes of `a` and `b`; a no-op when they are
already equivalent. -/
def djsUnion (cs : IdClasses) (a b : Nat) : IdClasses :=
  let ca := classOfD cs a
  if ca.contains b then cs
  else
    let cb := classOfD cs b
    cs.filter (fun c => !c.contains a && !c.contains b) ++ [ca ++ cb]

/-- Deserialization `deserialize`/`restoreState`: rebuild a partition by unioning each pair
in order. -/
def restoreEquivalences (pairs : List (Nat × Nat)) : IdClasses :=
  pairs.foldl (fun cs p => djsUnion cs p.1 p.2) []

/-- Size `size`: the number of identifiers explicitly inserted into a non-trivial
class (§3; singleton classes are never stored). -/
def djsSize (cs : IdClasses) : Nat := (cs.map List.length).sum

/-- Serialization `serialize`/`toJSON`: one (representative, member) pair per
non-representative member of each class. -/
def djsToJSON (cs : IdClasses) : List (Nat × Nat) :=
  (cs.map (fun c =>
    let m := c.min?.getD 0
    (c.filter (fun y => y ≠ m)).map (fun y => (m, y)))).flatten

/-- Whether `x` and `y` are in the same equivalence class: the partition a
list of classes denotes. -/
def inSameClass (cs : IdClasses) (x y : Nat) : Bool :=
  x == y || cs.any (fun c => c.contains x && c.contains y)

/-- Well-formedness of a stored partition: classes are nonempty and pairwise
disjoint.  `restoreEquivalences` establishes this and `djsUnion` preserves
it. -/
def ClassesWF (cs : IdClasses) : Prop :=
  (∀ c ∈ cs, c ≠ []) ∧ List.Pairwise (fun c d => ∀ z, z ∈ c → z ∈ d → False) cs

/-- All stored ids fit in 64 bits.  Holds for partitions restored from
parsed persisted state. -/
def ClassesBounded (cs : IdClasses) : Prop :=
  ∀ c ∈ cs, ∀ z ∈ c, z < 18446744073709551616

/-! ## `SegmentationUserLayer` (`segmentation_user_layer.ts`)

The serializable state of a segmentation layer.  The visible-segment set
(`Uint64Set`, not under `src/`) is modelled from the spec (§3) as a set of
identifiers whose JSON form is the list of decimal strings of its members;
`SegmentColorHash` and the selection/dropdown widgets carry no serialized
state and are omitted.  JSON values are modelled structurally: optional
fields are optional, and the constant `type: segmentation` entry of
`toJSON` is not recorded (it carries no state). -/

/-- The persisted JSON state of one segmentation layer (spec §6 schema). -/
structure LayerJSON where
  source : Option String
  mesh : Option String
  skeletons : Option String
  selectedAlpha : ℚ
  notSelectedAlpha : ℚ
  objectAlpha : ℚ
  /-- Omitted (`none`) when the visible-segment set is empty. -/
  segments : Option (List String)
  /-- Omitted (`none`) when the equivalence relation is empty. -/
  equivalences : Option (List (String × String))
deriving DecidableEq, Repr

/-- The state of a `SegmentationUserLayer`. -/
structure SegmentationUserLayer where
  volumePath : Option String
  meshPath : Option String
  skeletonsPath : Option String
  selectedAlpha : ℚ
  notSelectedAlpha : ℚ
  objectAlpha : ℚ
  visibleSegments : Finset Nat
  segmentEquivalences : IdClasses
deriving DecidableEq

/-- Parse a list of decimal-string uint64 ids (the `segments` value). -/
def parseUint64List : List String → Option (List Nat)
  | [] => some []
  | s :: rest => do
    let n ← (Uint64.parseString s 10).map Uint64.toNat
    let ns ← parseUint64List rest
    pure (n :: ns)

/-- Parse a list of decimal-string uint64 pairs (the `equivalences`
value). -/
def parseUint64Pairs : List (String × String) → Option (List (Nat × Nat))
  | [] => some []
  | p :: rest => do
    let a ← (Uint64.parseString p.1 10).map Uint64.toNat
    let b ← (Uint64.parseString p.2 10).map Uint64.toNat
    let ps ← parseUint64Pairs rest
    pure ((a, b) :: ps)

/-- State restoration in the `SegmentationUserLayer` constructor: restore the
equivalences first, then parse each segment string in radix 10 and add
`segmentEquivalences.get(id)` — the representative, not the original id — to
the visible-segment set.  Fails (`none`) on a malformed field.  The
asynchronous source/mesh/skeleton resolution only spawns render layers and
does not touch this state. -/
def SegmentationUserLayer.restoreState (x : LayerJSON) : Option SegmentationUserLayer := do
  let pairs ← parseUint64Pairs (x.equivalences.getD [])
  let segmentEquivalences := restoreEquivalences pairs
  let segs ← parseUint64List (x.segments.getD [])
  let visibleSegments :=
    segs.foldl (fun vs id => insert (djsGet segmentEquivalences id) vs) ∅
  pure {
    volumePath := x.source, meshPath := x.mesh, skeletonsPath := x.skeletons,
    selectedAlpha := x.selectedAlpha, notSelectedAlpha := x.notSelectedAlpha,
    objectAlpha := x.objectAlpha,
    visibleSegments := visibleSegments,
    segmentEquivalences := segmentEquivalences }

/-- Serialization `SegmentationUserLayer.toJSON`: paths and alphas verbatim; the segment
list (sorted decimal strings of the visible set) only when the set is
nonempty; the equivalence pairs only when the relation is nonempty. -/
def SegmentationUserLayer.toJSON (layer : SegmentationUserLayer) : LayerJSON :=
  { source := layer.volumePath, mesh := layer.meshPath,
    skeletons := layer.skeletonsPath,
    selectedAlpha := layer.selectedAlpha,
    notSelectedAlpha := layer.notSelectedAlpha,
    objectAlpha := layer.objectAlpha,
    segments :=
      if 0 < layer.visibleSegments.card then
        some ((layer.visibleSegments.sort (· ≤ ·)).map toDecString)
      else none,
    equivalences :=
      if 0 < djsSize layer.segmentEquivalences then
        some ((djsToJSON layer.segmentEquivalences).map
          (fun p => (toDecString p.1, toDecString p.2)))
      else none }

/-- Actions `handleAction`: `recolor` randomizes the (unserialized) color hash,
`clear-segments` empties the visible set, and `select` toggles the currently
selected segment (if any) in and out of the visible set. -/
def SegmentationUserLayer.handleAction (layer : SegmentationUserLayer)
    (action : String) (selectedSegment : Option Nat) : SegmentationUserLayer :=
  match action with
  | "recolor" => layer
  | "clear-segments" => { layer with visibleSegments := ∅ }
  | "select" =>
    match selectedSegment with
    | none => layer
    | some segment =>
      if segment ∈ layer.visibleSegments then
        { layer with visibleSegments := layer.visibleSegments.erase segment }
      else
        { layer with visibleSegments := insert segment layer.visibleSegments }
  | _ => layer

/-- The visible-segment set a persisted state encodes: its parsed
`segments` list as a set (an omitted list encodes the empty set). -/
def encodedSegments (x : LayerJSON) : Option (Finset Nat) :=
  (parseUint64List (x.segments.getD [])).map List.toFinset

/-- The equivalence partition a persisted state encodes: the partition
generated by its parsed `equivalences` pair list. -/
def encodedPartition (x : LayerJSON) : Option IdClasses :=
  (parseUint64Pairs (x.equivalences.getD [])).map restoreEquivalences

/-- A sample persisted state whose single listed segment (7) is not the
representative of its equivalence class {5, 7}. -/
def samplePersistedState : LayerJSON :=
  { source := none, mesh := none, skeletons := none,
    selectedAlpha := 1, notSelectedAlpha := 0, objectAlpha := 1,
    segments := some ["7"], equivalences := some [("5", "7")] }

/-- The layer `samplePersistedState` restores to: the representative 5 is
made visible, not the listed id 7. -/
def sampleRestoredLayer : SegmentationUserLayer :=
  { volumePath := none, meshPath := none, skeletonsPath := none,
    selectedAlpha := 1, notSelectedAlpha := 0, objectAlpha := 1,
    visibleSegments := {5}, segmentEquivalences := [[5, 7]] }

/-! ## `transformPickedValue` -/

/-- A value read back from the pick buffer: `null`/`undefined`, a plain
JavaScript number, or a `Uint64`. -/
inductive PickedValue
  | null
  | num (v : Nat)
  | u64 (v : Uint64)
deriving DecidableEq, Repr

/-- The result of `transformPickedValue`: the input value, or a
`Uint64MapEntry` pairing the original value with its representative. -/
inductive TransformedPickedValue
  | null
  | num (v : Nat)
  | u64 (v : Uint64)
  | mapEntry (key rep : Uint64)
deriving DecidableEq, Repr

/-- The identity embedding of a picked value into the result type. -/
def embedPicked : PickedValue → TransformedPickedValue
  | .null => .null
  | .num n => .num n
  | .u64 u => .u64 u

/-- Resolution `segmentEquivalences.get` on `Uint64` values. -/
def djsGetU (cs : IdClasses) (u : Uint64) : Uint64 :=
  Uint64.ofNat (djsGet cs u.toNat)

/-- Mapping `transformPickedValue`: `null`/`undefined` and any value under an empty
equivalence map pass through; otherwise a plain number is first widened to
`new Uint64(value, 0)`, the widened value is resolved through the
equivalence map, and the result is the (possibly widened) value itself when
it is its own representative, else a `Uint64MapEntry` of the value and its
representative. -/
def SegmentationUserLayer.transformPickedValue (layer : SegmentationUserLayer) :
    PickedValue → TransformedPickedValue
  | .null => .null
  | .num n =>
    if djsSize layer.segmentEquivalences = 0 then .num n
    else
      let value : Uint64 := ⟨n, 0⟩
      let mappedValue := djsGetU layer.segmentEquivalences value
      if Uint64.equal mappedValue value then .u64 value
      else .mapEntry value mappedValue
  | .u64 u =>
    if djsSize layer.segmentEquivalences = 0 then .u64 u
    else
      let mappedValue := djsGetU layer.segmentEquivalences u
      if Uint64.equal mappedValue u then .u64 u
      else .mapEntry u mappedValue

/-! ## `SkeletonLayer.draw` (`skeleton/frontend.ts`)

The draw pass over the chunk map of the skeleton source.  `ChunkState`,
`forEachSegmentToDraw`, `getObjectColor` and the pick-ID registry live in
modules not under `src/`:

* `ChunkState` is modelled from the chunk lifecycle in the spec (§3), with
  `gpuMemory` standing for `ChunkState.GPU_MEMORY` in the source (named
  `GPU_RESIDENT` in the spec).
* Modelled from the spec (§4.5): `forEachSegmentToDraw` iterates the chunks,
  resolves the owning segment id of each chunk through the equivalence map to its
  representative, and skips the chunk if the representative is not in the
  expanded visible set; the expanded visible set (§3) holds an id iff its
  equivalence class intersects the visible-segment set.
* Modelled from the spec (§4.5, §6): `pickIDs.register(layer, objectId)`
  registers a fresh picking identifier for the (layer, original id) pair so
  a later pixel readback can be reverse-mapped; `getObjectColor` computes
  the draw color from the representative via the external `colorFor`
  collaborator and the layer alpha.

GL calls without observable state (shader bind, matrices, line width) are
not recorded; a draw operation records what `drawSkeleton` is invoked
with. -/

/-- Chunk lifecycle states (spec §3); `gpuMemory` is `GPU_MEMORY`. -/
inductive ChunkState
  | queued
  | downloading
  | systemMemory
  | gpuMemory
  | failed
deriving DecidableEq, Repr

/-- A skeleton chunk as the draw pass sees it: its owning segment id and its
lifecycle state. -/
structure SkeletonChunkModel where
  objectId : Nat
  state : ChunkState
deriving DecidableEq, Repr

/-- The display state a skeleton layer draws from. -/
structure SegmentationDisplayState where
  objectAlpha : ℚ
  visibleSegments : Finset Nat
  segmentEquivalences : IdClasses
deriving DecidableEq

/-- The layer viewed as the display state its render layers read
(`SegmentationUserLayer implements SegmentationDisplayState`). -/
def SegmentationUserLayer.displayState (layer : SegmentationUserLayer) :
    SegmentationDisplayState :=
  { objectAlpha := layer.objectAlpha,
    visibleSegments := layer.visibleSegments,
    segmentEquivalences := layer.segmentEquivalences }

/-- Modelled from the spec (§3): the expanded visible set — `id` is
expanded-visible iff its equivalence class intersects the visible set. -/
def isVisibleExpanded (ds : SegmentationDisplayState) (id : Nat) : Bool :=
  (classOfD ds.segmentEquivalences id).any (fun m => decide (m ∈ ds.visibleSegments))

/-- The pick-ID registry: entry `i` is the (layer handle, original object
id) pair registered for pick id `i`. -/
structure PickIDRegistry where
  entries : List (Nat × Nat)
deriving DecidableEq, Repr

/-- Registration `pickIDs.register(layer, objectId)`: a fresh pick id mapped to the
(layer, original id) pair. -/
def PickIDRegistry.register (reg : PickIDRegistry) (layer objectId : Nat) :
    Nat × PickIDRegistry :=
  (reg.entries.length, ⟨reg.entries ++ [(layer, objectId)]⟩)

/-- One draw operation issued by `drawSkeleton`. -/
structure DrawOp where
  objectId : Nat
  rootObjectId : Nat
  pickID : Nat
  /-- Value of `getObjectColor(displayState, rootObjectId, alpha)`; `none` when
  `pickingOnly` (the color uniform is not set). -/
  color : Option (Nat × ℚ)
deriving DecidableEq, Repr

/-- The loop body of `SkeletonLayer.draw`: `forEachSegmentToDraw` over the
chunk map, with the callback skipping chunks not in GPU memory and issuing
one draw operation per remaining chunk. -/
def drawChunks (ds : SegmentationDisplayState) (colorFor : Nat → Nat)
    (layer : Nat) (pickingOnly : Bool) (alpha : ℚ) :
    List SkeletonChunkModel → PickIDRegistry → List DrawOp × PickIDRegistry
  | [], reg => ([], reg)
  | chunk :: rest, reg =>
    let rootObjectId := djsGet ds.segmentEquivalences chunk.objectId
    if isVisibleExpanded ds rootObjectId then
      if chunk.state = ChunkState.gpuMemory then
        let (pickID, reg') := reg.register layer chunk.objectId
        let op : DrawOp :=
          { objectId := chunk.objectId, rootObjectId := rootObjectId,
            pickID := pickID,
            color := if pickingOnly then none else some (colorFor rootObjectId, alpha) }
        let (ops, reg'') := drawChunks ds colorFor layer pickingOnly alpha rest reg'
        (op :: ops, reg'')
      else drawChunks ds colorFor layer pickingOnly alpha rest reg
    else drawChunks ds colorFor layer pickingOnly alpha rest reg

/-- Entry point `SkeletonLayer.draw`: compute `alpha = min(1, objectAlpha)`, skip the
whole pass when it is fully transparent, otherwise run the per-chunk loop. -/
def SkeletonLayer.draw (ds : SegmentationDisplayState) (colorFor : Nat → Nat)
    (layer : Nat) (pickingOnly : Bool) (chunks : List SkeletonChunkModel)
    (reg : PickIDRegistry) : List DrawOp × PickIDRegistry :=
  let alpha := min 1 ds.objectAlpha
  if alpha ≤ 0 then ([], reg)
  else drawChunks ds colorFor layer pickingOnly alpha chunks reg

/-! ## Theorems for the GPU surface and framebuffer claims -/

/-- Helper: the effect of `bind` on the verification flag and the status
query counter, by cases on the cached flag and the reported status. -/
theorem bind_flag_count (s : FramebufferConfiguration) (w h : Int) (st : GLStatus) :
    (s.attachmentVerified = true →
      (s.bind w h st).1.attachmentVerified = true ∧
      (s.bind w h st).1.statusCheckCount = s.statusCheckCount) ∧
    (s.attachmentVerified = false →
      (s.bind w h st).1.attachmentVerified = (st = FRAMEBUFFER_COMPLETE : Bool) ∧
      (s.bind w h st).1.statusCheckCount = s.statusCheckCount + 1) := by
  constructor
  · intro hv
    simp [FramebufferConfiguration.bind, FramebufferConfiguration.verifyAttachment, hv]
  · intro hv
    by_cases hst : st = FRAMEBUFFER_COMPLETE <;>
      simp [FramebufferConfiguration.bind, FramebufferConfiguration.verifyAttachment, hv, hst]

/-- C3: resizing a GPU surface (`Renderbuffer` or `TextureBuffer`) to its
last-bound size is a no-op performing zero reallocation; otherwise the stored
size is updated and the storage is released and reallocated exactly once. -/
theorem C3_resize_noop_or_single_realloc (s : SizeManaged) (w h : Int) :
    (s.hasSize w h = true → s.resize w h = s) ∧
    (s.hasSize w h = false →
      (s.resize w h).width = some w ∧ (s.resize w h).height = some h ∧
      (s.resize w h).storage = some (w, h) ∧
      (s.resize w h).allocCount = s.allocCount + 1) := by
  constructor
  · intro hsz
    simp [SizeManaged.resize, hsz]
  · intro hsz
    simp [SizeManaged.resize, hsz, SizeManaged.performResize]

/-- C3 witness: a fresh texture buffer resized to (4,3) allocates once, and a
second resize to (4,3) is a no-op. -/
theorem C3_resize_noop_or_single_realloc_witness :
    ((SizeManaged.init .textureBuffer).resize 4 3).resize 4 3 =
      (SizeManaged.init .textureBuffer).resize 4 3 ∧
    ((SizeManaged.init .textureBuffer).resize 4 3).allocCount = 1 := by
  refine ⟨(C3_resize_noop_or_single_realloc _ 4 3).1 (by decide), ?_⟩
  have h := (C3_resize_noop_or_single_realloc (SizeManaged.init .textureBuffer) 4 3).2 (by decide)
  exact h.2.2.2

/-- C5 counterexample: on a configuration whose first bind reports an
incomplete framebuffer, the second bind re-runs the status query (`two`
queries in total), so validation is not performed exactly once at the first
bind and a subsequent bind does not skip re-validation. -/
theorem C5_counterexample_failed_validation_not_cached :
    ((FramebufferConfiguration.init [SizeManaged.init .textureBuffer] none).bindSeq
        4 3 [0]).statusCheckCount = 1 ∧
    ((FramebufferConfiguration.init [SizeManaged.init .textureBuffer] none).bindSeq
        4 3 [0, 0]).statusCheckCount = 2 := by
  decide

/-- C5 (amended): attachment validation is lazy and cached on success: a
configuration that is already verified never queries the status again, and an
unverified configuration queries once per bind up to and including the first
bind whose status is `FRAMEBUFFER_COMPLETE`, after which it is verified and
all later binds skip re-validation. -/
theorem C5_validation_lazy_cached_on_success (s : FramebufferConfiguration)
    (w h : Int) (ss : List GLStatus) :
    (s.attachmentVerified = true →
      (s.bindSeq w h ss).statusCheckCount = s.statusCheckCount ∧
      (s.bindSeq w h ss).attachmentVerified = true) ∧
    (s.attachmentVerified = false →
      (s.bindSeq w h ss).statusCheckCount = s.statusCheckCount + checksNeeded ss ∧
      ((s.bindSeq w h ss).attachmentVerified = true ↔ FRAMEBUFFER_COMPLETE ∈ ss)) := by
  induction ss generalizing s with
  | nil =>
    refine ⟨fun hv => ⟨rfl, hv⟩, fun hv => ⟨rfl, ?_⟩⟩
    simp [FramebufferConfiguration.bindSeq, hv]
  | cons st rest ih =>
    constructor
    · intro hv
      have hb := (bind_flag_count s w h st).1 hv
      have hrest := ((ih ((s.bind w h st).1)).1 hb.1)
      rw [FramebufferConfiguration.bindSeq]
      exact ⟨hrest.1.trans hb.2, hrest.2⟩
    · intro hv
      have hb := (bind_flag_count s w h st).2 hv
      rw [FramebufferConfiguration.bindSeq]
      by_cases hst : st = FRAMEBUFFER_COMPLETE
      · have hbv : (s.bind w h st).1.attachmentVerified = true := by
          rw [hb.1, hst]; simp
        have hrest := (ih ((s.bind w h st).1)).1 hbv
        refine ⟨?_, ?_⟩
        · rw [hrest.1, hb.2]
          simp [checksNeeded, hst]
        · rw [hrest.2]
          simp [hst]
      · have hbv : (s.bind w h st).1.attachmentVerified = false := by
          rw [hb.1]; simp [hst]
        have hrest := (ih ((s.bind w h st).1)).2 hbv
        refine ⟨?_, ?_⟩
        · rw [hrest.1, hb.2]
          simp [checksNeeded, hst]
          omega
        · rw [hrest.2, List.mem_cons]
          constructor
          · exact Or.inr
          · rintro (hc | hm)
            · exact absurd hc.symm hst
            · exact hm

/-- C5 witness: a fresh configuration bound twice with statuses
`[FRAMEBUFFER_COMPLETE, 0]` performs exactly one status query and ends
verified. -/
theorem C5_validation_lazy_cached_on_success_witness :
    ((FramebufferConfiguration.init [] none).bindSeq 4 3
        [FRAMEBUFFER_COMPLETE, 0]).statusCheckCount = 1 ∧
    ((FramebufferConfiguration.init [] none).bindSeq 4 3
        [FRAMEBUFFER_COMPLETE, 0]).attachmentVerified = true := by
  have h := (C5_validation_lazy_cached_on_success (FramebufferConfiguration.init [] none)
    4 3 [FRAMEBUFFER_COMPLETE, 0]).2 rfl
  refine ⟨?_, h.2.mpr (by simp)⟩
  simpa [checksNeeded, FramebufferConfiguration.init] using h.1

/-- C6: when validation runs (the cached flag is unset), `verifyAttachment`
raises an error iff the framebuffer status is not `FRAMEBUFFER_COMPLETE`, and
on the error path the cached flag is not set (the state is unchanged except
for the instrumentation counter); when the flag is already set, no error is
raised. -/
theorem C6_verifyAttachment_error_iff_incomplete (s : FramebufferConfiguration)
    (status : GLStatus) :
    (s.attachmentVerified = false →
      (((s.verifyAttachment status).2 ≠ none) ↔ status ≠ FRAMEBUFFER_COMPLETE) ∧
      ((s.verifyAttachment status).2 ≠ none →
        (s.verifyAttachment status).1 =
          { s with statusCheckCount := s.statusCheckCount + 1 })) ∧
    (s.attachmentVerified = true → (s.verifyAttachment status).2 = none) := by
  constructor
  · intro hv
    by_cases hst : status = FRAMEBUFFER_COMPLETE <;>
      simp [FramebufferConfiguration.verifyAttachment, hv, hst]
  · intro hv
    simp [FramebufferConfiguration.verifyAttachment, hv]

/-- C6 witness: on a fresh configuration, status 0 raises an error and leaves
the flag unset, while status `FRAMEBUFFER_COMPLETE` raises none. -/
theorem C6_verifyAttachment_error_iff_incomplete_witness :
    ((FramebufferConfiguration.init [] none).verifyAttachment 0).2 ≠ none ∧
    ((FramebufferConfiguration.init [] none).verifyAttachment 0).1.attachmentVerified =
      false ∧
    ((FramebufferConfiguration.init [] none).verifyAttachment
        FRAMEBUFFER_COMPLETE).2 = none := by
  have h := (C6_verifyAttachment_error_iff_incomplete
    (FramebufferConfiguration.init [] none) 0).1 rfl
  have herr : ((FramebufferConfiguration.init [] none).verifyAttachment 0).2 ≠ none := by
    exact h.1.mpr (by decide)
  refine ⟨herr, ?_, ?_⟩
  · rw [h.2 herr]; rfl
  · have h2 := (C6_verifyAttachment_error_iff_incomplete
      (FramebufferConfiguration.init [] none) FRAMEBUFFER_COMPLETE).1 rfl
    by_contra hne
    exact (h2.1.mp hne) rfl

/-- C4: evaluating `readPixelAsUint32` at the channel bytes (0,0,0,255)
yields the signed 32-bit value `-16777216`, not the little-endian packed
unsigned value `4278190080 = 2^24 * 255`: the JavaScript `<<` in the source
produces a signed result whenever the alpha byte is at least 128, so the
function does not return a value in `0 .. 2^32 - 1` as its own documentation
("interprets the RGBA result as a little-endian uint32 value") requires. -/
theorem C4_readPixelAsUint32_signed_overflow :
    FramebufferConfiguration.readPixelAsUint32 ⟨0, 0, 0, 255⟩ = -16777216 ∧
    (0 : Int) + 2 ^ 8 * 0 + 2 ^ 16 * 0 + 2 ^ 24 * 255 = 4278190080 ∧
    (-16777216 : Int) ≠ 4278190080 := by
  refine ⟨by decide, by norm_num, by decide⟩

/-! ## Decimal-string lemmas -/

/-- The character of a decimal digit decodes to the code point of that digit. -/
theorem toNat_digitToChar {d : Nat} (h : d < 10) : (digitToChar d).toNat = 48 + d := by
  have hv : (48 + d).isValidChar := Or.inl (by omega)
  rw [digitToChar, Char.ofNat, dif_pos hv]
  simp [Char.toNat, Char.ofNatAux, UInt32.toNat, UInt32.ofNatCore]

/-- Digit-to-character round trip. -/
theorem charToDigit_digitToChar {d : Nat} (h : d < 10) :
    charToDigit (digitToChar d) = d := by
  rw [charToDigit, toNat_digitToChar h]
  omega

/-- The character of a decimal digit is a digit character. -/
theorem isDigitChar_digitToChar {d : Nat} (h : d < 10) :
    isDigitChar (digitToChar d) = true := by
  rw [isDigitChar, toNat_digitToChar h]
  simp
  omega

/-- Parsing is a left inverse of decimal formatting. -/
theorem parseDecimal_toDecString (n : Nat) : parseDecimal (toDecString n) = some n := by
  by_cases h0 : n = 0
  · subst h0
    decide
  · have hdig : ∀ d ∈ Nat.digits 10 n, d < 10 := fun d hd =>
      Nat.digits_lt_base (by norm_num) hd
    have hne : Nat.digits 10 n ≠ [] := Nat.digits_ne_nil_iff_ne_zero.mpr h0
    rw [toDecString, if_neg h0, parseDecimal]
    have hdata : (String.mk ((Nat.digits 10 n).map digitToChar).reverse).data =
        ((Nat.digits 10 n).map digitToChar).reverse := rfl
    rw [hdata]
    have hcond : ((Nat.digits 10 n).map digitToChar).reverse ≠ [] ∧
        (((Nat.digits 10 n).map digitToChar).reverse.all isDigitChar) = true := by
      constructor
      · simp [hne]
      · rw [List.all_eq_true]
        intro c hc
        rw [List.mem_reverse, List.mem_map] at hc
        obtain ⟨d, hd, rfl⟩ := hc
        exact isDigitChar_digitToChar (hdig d hd)
    rw [if_pos hcond]
    have hmap : (((Nat.digits 10 n).map digitToChar).reverse.map charToDigit).reverse =
        Nat.digits 10 n := by
      rw [List.map_reverse, List.reverse_reverse, List.map_map]
      have : ∀ d ∈ Nat.digits 10 n, (charToDigit ∘ digitToChar) d = id d := by
        intro d hd
        simp [charToDigit_digitToChar (hdig d hd)]
      rw [List.map_congr_left this, List.map_id]
    rw [hmap, Nat.ofDigits_digits]

/-- Round trip of `Uint64` through its numeric value, below `2^64`. -/
theorem toNat_ofNat_uint64 {n : Nat} (h : n < 18446744073709551616) :
    (Uint64.ofNat n).toNat = n := by
  rw [Uint64.ofNat, Uint64.toNat]
  simp only
  omega

/-- Parsing `parseString` inverts decimal formatting for 64-bit values. -/
theorem parseString_toDecString {n : Nat} (h : n < 18446744073709551616) :
    Uint64.parseString (toDecString n) 10 = some (Uint64.ofNat n) := by
  rw [Uint64.parseString, if_pos rfl, parseDecimal_toDecString]
  simp [h]

/-- Parsing `parseUint64List` inverts decimal formatting of a bounded id list. -/
theorem parseUint64List_toDecString {l : List Nat}
    (h : ∀ n ∈ l, n < 18446744073709551616) :
    parseUint64List (l.map toDecString) = some l := by
  induction l with
  | nil => rfl
  | cons n rest ih =>
    have hn := h n (List.mem_cons_self n rest)
    have hrest := ih fun m hm => h m (List.mem_cons_of_mem n hm)
    rw [List.map_cons, parseUint64List]
    simp [parseString_toDecString hn, toNat_ofNat_uint64 hn, hrest]

/-- Parsing `parseUint64Pairs` inverts decimal formatting of a bounded pair list. -/
theorem parseUint64Pairs_toDecString {l : List (Nat × Nat)}
    (h : ∀ p ∈ l, p.1 < 18446744073709551616 ∧ p.2 < 18446744073709551616) :
    parseUint64Pairs (l.map (fun p => (toDecString p.1, toDecString p.2))) = some l := by
  induction l with
  | nil => rfl
  | cons p rest ih =>
    have hp := h p (List.mem_cons_self p rest)
    have hrest := ih fun q hq => h q (List.mem_cons_of_mem p hq)
    rw [List.map_cons, parseUint64Pairs]
    simp [parseString_toDecString hp.1, parseString_toDecString hp.2,
      toNat_ofNat_uint64 hp.1, toNat_ofNat_uint64 hp.2, hrest]

/-! ## Disjoint-set lemmas -/

/-- A stored class found by `classOf` is a class of the partition containing
the queried id. -/
theorem classOf_sound {cs : IdClasses} {x : Nat} {c : List Nat}
    (h : classOf cs x = some c) : c ∈ cs ∧ x ∈ c := by
  refine ⟨List.mem_of_find?_eq_some h, ?_⟩
  have hp := List.find?_some h
  simpa using hp

/-- Well-formedness passes to the tail. -/
theorem classesWF_of_cons {d : List Nat} {rest : IdClasses}
    (h : ClassesWF (d :: rest)) : ClassesWF rest :=
  ⟨fun c hc => h.1 c (List.mem_cons_of_mem d hc), (List.pairwise_cons.mp h.2).2⟩

/-- In a well-formed partition, `classOf` finds exactly the stored class the
id belongs to. -/
theorem classOf_complete {cs : IdClasses} (hwf : ClassesWF cs) {c : List Nat}
    {x : Nat} (hc : c ∈ cs) (hx : x ∈ c) : classOf cs x = some c := by
  induction cs with
  | nil => simp at hc
  | cons d rest ih =>
    have hd := List.pairwise_cons.mp hwf.2
    rcases List.mem_cons.mp hc with rfl | hcr
    · rw [classOf]
      simp [List.find?, hx]
    · have hxnd : x ∉ d := fun hxd => hd.1 c hcr x hxd hx
      have hrec := ih (classesWF_of_cons hwf) hcr
      rw [classOf] at hrec ⊢
      simp [List.find?, hxnd] at hrec ⊢
      exact hrec

/-- Two well-formed classes sharing an element are equal. -/
theorem class_unique {cs : IdClasses} (hwf : ClassesWF cs) {c d : List Nat}
    {z : Nat} (hc : c ∈ cs) (hd : d ∈ cs) (hzc : z ∈ c) (hzd : z ∈ d) : c = d := by
  by_contra hne
  have hsymm : Symmetric (fun c d : List Nat => ∀ z, z ∈ c → z ∈ d → False) :=
    fun a b hab z hza hzb => hab z hzb hza
  exact List.Pairwise.forall hsymm hwf.2 hc hd hne z hzc hzd

/-- Unfolding of the partition relation. -/
theorem inSameClass_iff {cs : IdClasses} {x y : Nat} :
    inSameClass cs x y = true ↔ x = y ∨ ∃ c ∈ cs, x ∈ c ∧ y ∈ c := by
  simp [inSameClass]

/-- The partition relation is reflexive. -/
theorem inSameClass_refl (cs : IdClasses) (x : Nat) : inSameClass cs x x = true := by
  simp [inSameClass]

/-- The partition relation is symmetric. -/
theorem inSameClass_symm {cs : IdClasses} {x y : Nat}
    (h : inSameClass cs x y = true) : inSameClass cs y x = true := by
  rcases inSameClass_iff.mp h with rfl | ⟨c, hc, hx, hy⟩
  · exact inSameClass_refl cs x
  · exact inSameClass_iff.mpr (Or.inr ⟨c, hc, hy, hx⟩)

/-- The partition relation is transitive on a well-formed partition. -/
theorem inSameClass_trans {cs : IdClasses} (hwf : ClassesWF cs) {x y z : Nat}
    (hxy : inSameClass cs x y = true) (hyz : inSameClass cs y z = true) :
    inSameClass cs x z = true := by
  rcases inSameClass_iff.mp hxy with rfl | ⟨c, hc, hx, hy⟩
  · exact hyz
  · rcases inSameClass_iff.mp hyz with rfl | ⟨d, hd, hy', hz⟩
    · exact hxy
    · have := class_unique hwf hc hd hy hy'
      subst this
      exact inSameClass_iff.mpr (Or.inr ⟨c, hc, hx, hz⟩)

/-- Every id belongs to its (possibly implicit) class. -/
theorem mem_classOfD (cs : IdClasses) (x : Nat) : x ∈ classOfD cs x := by
  rw [classOfD]
  cases h : classOf cs x with
  | none => simp
  | some c => simpa using (classOf_sound h).2

/-- In a well-formed partition the class of a stored member is its stored
class. -/
theorem classOfD_eq_of_mem {cs : IdClasses} (hwf : ClassesWF cs)
    {c : List Nat} {x : Nat} (hc : c ∈ cs) (hx : x ∈ c) : classOfD cs x = c := by
  rw [classOfD, classOf_complete hwf hc hx]
  rfl

/-- Membership in the class of an id means equivalence with that id. -/
theorem inSameClass_of_mem_classOfD {cs : IdClasses} {x z : Nat}
    (h : z ∈ classOfD cs x) : inSameClass cs x z = true := by
  rw [classOfD] at h
  cases hx : classOf cs x with
  | none =>
    rw [hx] at h
    simp at h
    rcases h with rfl
    exact inSameClass_refl _ _
  | some c =>
    rw [hx] at h
    obtain ⟨hcm, hxm⟩ := classOf_sound hx
    exact inSameClass_iff.mpr (Or.inr ⟨c, hcm, hxm, h⟩)

/-- Equivalence with an id means membership in the class of that id
(well-formed partition). -/
theorem mem_classOfD_of_inSameClass {cs : IdClasses} (hwf : ClassesWF cs)
    {x a : Nat} (h : inSameClass cs x a = true) : x ∈ classOfD cs a := by
  rcases inSameClass_iff.mp h with rfl | ⟨c, hc, hx, ha⟩
  · exact mem_classOfD _ _
  · rw [classOfD_eq_of_mem hwf hc ha]
    exact hx

/-- The default of `min?` is a member for nonempty lists. -/
theorem minD_mem {c : List Nat} (hc : c ≠ []) (d : Nat) : c.min?.getD d ∈ c := by
  cases h : c.min? with
  | none =>
    cases c with
    | nil => exact absurd rfl hc
    | cons a l => simp [List.min?] at h
  | some m =>
    simpa using List.min?_mem (fun a b => min_choice a b) h

/-- The representative of an id is in the class of that id. -/
theorem djsGet_mem_classOfD {cs : IdClasses} (hwf : ClassesWF cs) (x : Nat) :
    djsGet cs x ∈ classOfD cs x := by
  rw [djsGet, classOfD]
  cases h : classOf cs x with
  | none => simp
  | some c =>
    have hcm := (classOf_sound h).1
    simpa using minD_mem (hwf.1 c hcm) x

/-- Every id is equivalent to its representative. -/
theorem inSameClass_djsGet {cs : IdClasses} (hwf : ClassesWF cs) (x : Nat) :
    inSameClass cs x (djsGet cs x) = true :=
  inSameClass_of_mem_classOfD (djsGet_mem_classOfD hwf x)

/-- The class of an id is never the empty list. -/
theorem classOfD_ne_nil (cs : IdClasses) (x : Nat) : classOfD cs x ≠ [] :=
  List.ne_nil_of_mem (mem_classOfD cs x)

/-- Merging an already-equivalent pair is a no-op. -/
theorem djsUnion_eq_of_contains {cs : IdClasses} {a b : Nat}
    (h : ((classOfD cs a).contains b) = true) : djsUnion cs a b = cs := by
  have h' : b ∈ classOfD cs a := by simpa using h
  simp [djsUnion, h']

/-- The shape of `union` on a not-yet-equivalent pair. -/
theorem djsUnion_eq_of_not_contains {cs : IdClasses} {a b : Nat}
    (h : ¬ ((classOfD cs a).contains b) = true) :
    djsUnion cs a b =
      cs.filter (fun c => !c.contains a && !c.contains b) ++
        [classOfD cs a ++ classOfD cs b] := by
  have h' : b ∉ classOfD cs a := by simpa using h
  simp [djsUnion, h']

/-- How `union` refines the partition relation: two ids are equivalent after
`union(a, b)` iff they were already equivalent, or one was equivalent to `a`
and the other to `b`. -/
theorem inSameClass_djsUnion_iff {cs : IdClasses} (hwf : ClassesWF cs)
    (a b x y : Nat) :
    inSameClass (djsUnion cs a b) x y = true ↔
      inSameClass cs x y = true ∨
      (inSameClass cs x a = true ∧ inSameClass cs y b = true) ∨
      (inSameClass cs x b = true ∧ inSameClass cs y a = true) := by
  by_cases hab : ((classOfD cs a).contains b) = true
  · rw [djsUnion_eq_of_contains hab]
    have hab' : inSameClass cs a b = true :=
      inSameClass_of_mem_classOfD (by simpa using hab)
    constructor
    · exact Or.inl
    · rintro (h | ⟨hxa, hyb⟩ | ⟨hxb, hya⟩)
      · exact h
      · exact inSameClass_trans hwf (inSameClass_trans hwf hxa hab')
          (inSameClass_symm hyb)
      · exact inSameClass_trans hwf
          (inSameClass_trans hwf hxb (inSameClass_symm hab')) (inSameClass_symm hya)
  · rw [djsUnion_eq_of_not_contains hab]
    constructor
    · intro h
      rcases inSameClass_iff.mp h with rfl | ⟨c', hc', hx, hy⟩
      · exact Or.inl (inSameClass_refl _ _)
      · rcases List.mem_append.mp hc' with hcf | hcs
        · exact Or.inl (inSameClass_iff.mpr
            (Or.inr ⟨c', List.mem_of_mem_filter hcf, hx, hy⟩))
        · have hc'' : c' = classOfD cs a ++ classOfD cs b := by simpa using hcs
          subst hc''
          rcases List.mem_append.mp hx with hxa | hxb <;>
            rcases List.mem_append.mp hy with hya | hyb
          · exact Or.inl (inSameClass_trans hwf
              (inSameClass_symm (inSameClass_of_mem_classOfD hxa))
              (inSameClass_of_mem_classOfD hya))
          · exact Or.inr (Or.inl
              ⟨inSameClass_symm (inSameClass_of_mem_classOfD hxa),
               inSameClass_symm (inSameClass_of_mem_classOfD hyb)⟩)
          · exact Or.inr (Or.inr
              ⟨inSameClass_symm (inSameClass_of_mem_classOfD hxb),
               inSameClass_symm (inSameClass_of_mem_classOfD hya)⟩)
          · exact Or.inl (inSameClass_trans hwf
              (inSameClass_symm (inSameClass_of_mem_classOfD hxb))
              (inSameClass_of_mem_classOfD hyb))
    · rintro (h | ⟨hxa, hyb⟩ | ⟨hxb, hya⟩)
      · rcases inSameClass_iff.mp h with rfl | ⟨c', hc', hx, hy⟩
        · exact inSameClass_refl _ _
        · by_cases ha : a ∈ c'
          · have hca : classOfD cs a = c' := classOfD_eq_of_mem hwf hc' ha
            refine inSameClass_iff.mpr (Or.inr
              ⟨classOfD cs a ++ classOfD cs b, List.mem_append_right _ (by simp),
               List.mem_append_left _ (hca ▸ hx), List.mem_append_left _ (hca ▸ hy)⟩)
          · by_cases hb : b ∈ c'
            · have hcb : classOfD cs b = c' := classOfD_eq_of_mem hwf hc' hb
              refine inSameClass_iff.mpr (Or.inr
                ⟨classOfD cs a ++ classOfD cs b, List.mem_append_right _ (by simp),
                 List.mem_append_right _ (hcb ▸ hx), List.mem_append_right _ (hcb ▸ hy)⟩)
            · refine inSameClass_iff.mpr (Or.inr
                ⟨c', List.mem_append_left _ (List.mem_filter.mpr ⟨hc', by simp [ha, hb]⟩),
                 hx, hy⟩)
      · exact inSameClass_iff.mpr (Or.inr
          ⟨classOfD cs a ++ classOfD cs b, List.mem_append_right _ (by simp),
           List.mem_append_left _ (mem_classOfD_of_inSameClass hwf hxa),
           List.mem_append_right _ (mem_classOfD_of_inSameClass hwf hyb)⟩)
      · exact inSameClass_iff.mpr (Or.inr
          ⟨classOfD cs a ++ classOfD cs b, List.mem_append_right _ (by simp),
           List.mem_append_right _ (mem_classOfD_of_inSameClass hwf hxb),
           List.mem_append_left _ (mem_classOfD_of_inSameClass hwf hya)⟩)

/-- Merging preserves well-formedness. -/
theorem classesWF_djsUnion {cs : IdClasses} (hwf : ClassesWF cs) (a b : Nat) :
    ClassesWF (djsUnion cs a b) := by
  by_cases hab : ((classOfD cs a).contains b) = true
  · rw [djsUnion_eq_of_contains hab]
    exact hwf
  · rw [djsUnion_eq_of_not_contains hab]
    constructor
    · intro c hc
      rcases List.mem_append.mp hc with hcf | hcs
      · exact hwf.1 c (List.mem_of_mem_filter hcf)
      · have hc' : c = classOfD cs a ++ classOfD cs b := by simpa using hcs
        subst hc'
        intro hnil
        exact classOfD_ne_nil cs a (List.append_eq_nil.mp hnil).1
    · rw [List.pairwise_append]
      refine ⟨List.Pairwise.sublist (List.filter_sublist _) hwf.2, by simp, ?_⟩
      intro c hcf d hd z hzc hzd
      have hmem := List.mem_filter.mp hcf
      have hnac : ¬ a ∈ c := by
        intro hac
        have := hmem.2
        simp at this
        exact this.1 hac
      have hnbc : ¬ b ∈ c := by
        intro hbc
        have := hmem.2
        simp at this
        exact this.2 hbc
      have hd' : d = classOfD cs a ++ classOfD cs b := by simpa using hd
      subst hd'
      have key : ∀ w : Nat, ¬ w ∈ c → ¬ z ∈ classOfD cs w := by
        intro w hwc hzw
        rw [classOfD] at hzw
        cases hw : classOf cs w with
        | none =>
          rw [hw] at hzw
          simp at hzw
          subst hzw
          -- z = w, yet z ∈ c while w ∉ c
          exact hwc hzc
        | some e =>
          rw [hw] at hzw
          obtain ⟨hem, hwm⟩ := classOf_sound hw
          have : c = e := class_unique hwf hmem.1 hem hzc hzw
          exact hwc (this ▸ hwm)
      rcases List.mem_append.mp hzd with hza | hzb
      · exact key a hnac hza
      · exact key b hnbc hzb

/-- Folding unions preserves well-formedness. -/
theorem classesWF_foldl (ps : List (Nat × Nat)) :
    ∀ cs, ClassesWF cs →
      ClassesWF (ps.foldl (fun cs p => djsUnion cs p.1 p.2) cs) := by
  induction ps with
  | nil => exact fun cs h => h
  | cons p rest ih =>
    intro cs h
    exact ih (djsUnion cs p.1 p.2) (classesWF_djsUnion h p.1 p.2)

/-- A restored partition is well-formed. -/
theorem classesWF_restore (ps : List (Nat × Nat)) :
    ClassesWF (restoreEquivalences ps) :=
  classesWF_foldl ps [] ⟨by simp, List.Pairwise.nil⟩

/-- Folding unions only coarsens the partition. -/
theorem inSameClass_foldl_mono (ps : List (Nat × Nat)) :
    ∀ cs, ClassesWF cs → ∀ x y, inSameClass cs x y = true →
      inSameClass (ps.foldl (fun cs p => djsUnion cs p.1 p.2) cs) x y = true := by
  induction ps with
  | nil => exact fun cs _ x y h => h
  | cons p rest ih =>
    intro cs hwf x y h
    exact ih (djsUnion cs p.1 p.2) (classesWF_djsUnion hwf p.1 p.2) x y
      ((inSameClass_djsUnion_iff hwf p.1 p.2 x y).mpr (Or.inl h))

/-- After folding a list of unions, every folded pair is equivalent. -/
theorem inSameClass_foldl_pairs (ps : List (Nat × Nat)) :
    ∀ cs, ClassesWF cs → ∀ p ∈ ps,
      inSameClass (ps.foldl (fun cs p => djsUnion cs p.1 p.2) cs) p.1 p.2 = true := by
  induction ps with
  | nil => intro cs _ p hp; simp at hp
  | cons q rest ih =>
    intro cs hwf p hp
    rcases List.mem_cons.mp hp with rfl | hpr
    · refine inSameClass_foldl_mono rest (djsUnion cs p.1 p.2)
        (classesWF_djsUnion hwf p.1 p.2) p.1 p.2 ?_
      exact (inSameClass_djsUnion_iff hwf p.1 p.2 p.1 p.2).mpr
        (Or.inr (Or.inl ⟨inSameClass_refl _ _, inSameClass_refl _ _⟩))
    · exact ih (djsUnion cs q.1 q.2) (classesWF_djsUnion hwf q.1 q.2) p hpr

/-- Soundness of folding unions: if every folded pair is related by an
equivalence-like relation `R` and the starting partition is below `R`, so is
the result. -/
theorem inSameClass_foldl_sound (R : Nat → Nat → Prop)
    (hsym : ∀ x y, R x y → R y x)
    (htr : ∀ x y z, R x y → R y z → R x z)
    (ps : List (Nat × Nat)) (hps : ∀ p ∈ ps, R p.1 p.2) :
    ∀ cs, ClassesWF cs → (∀ x y, inSameClass cs x y = true → R x y) →
      ∀ x y, inSameClass (ps.foldl (fun cs p => djsUnion cs p.1 p.2) cs) x y = true →
        R x y := by
  induction ps with
  | nil => exact fun cs _ hbase x y h => hbase x y h
  | cons p rest ih =>
    intro cs hwf hbase x y h
    have hpR := hps p (List.mem_cons_self p rest)
    refine ih (fun q hq => hps q (List.mem_cons_of_mem p hq))
      (djsUnion cs p.1 p.2) (classesWF_djsUnion hwf p.1 p.2) ?_ x y h
    intro u v hu
    rcases (inSameClass_djsUnion_iff hwf p.1 p.2 u v).mp hu with
      h0 | ⟨hua, hvb⟩ | ⟨hub, hva⟩
    · exact hbase u v h0
    · exact htr u p.2 v (htr u p.1 p.2 (hbase u p.1 hua) hpR)
        (hsym v p.2 (hbase v p.2 hvb))
    · exact htr u p.1 v (htr u p.2 p.1 (hbase u p.2 hub) (hsym p.1 p.2 hpR))
        (hsym v p.1 (hbase v p.1 hva))

/-- Each serialized pair relates two members of one class. -/
theorem djsToJSON_pair_mem {cs : IdClasses} {p : Nat × Nat}
    (h : p ∈ djsToJSON cs) :
    ∃ c ∈ cs, p.1 = c.min?.getD 0 ∧ p.2 ∈ c ∧ p.2 ≠ p.1 := by
  rw [djsToJSON] at h
  rw [List.mem_flatten] at h
  obtain ⟨l, hl, hpl⟩ := h
  rw [List.mem_map] at hl
  obtain ⟨c, hc, rfl⟩ := hl
  simp only at hpl
  rw [List.mem_map] at hpl
  obtain ⟨y, hy, rfl⟩ := hpl
  have hy' := List.mem_filter.mp hy
  refine ⟨c, hc, rfl, hy'.1, by simpa using hy'.2⟩

/-- Conversely, every non-representative member yields a serialized pair. -/
theorem mem_djsToJSON {cs : IdClasses} {c : List Nat} {z : Nat}
    (hc : c ∈ cs) (hz : z ∈ c) (hne : z ≠ c.min?.getD 0) :
    (c.min?.getD 0, z) ∈ djsToJSON cs := by
  rw [djsToJSON, List.mem_flatten]
  refine ⟨(c.filter (fun y => y ≠ c.min?.getD 0)).map (fun y => (c.min?.getD 0, y)),
    ?_, ?_⟩
  · exact List.mem_map.mpr ⟨c, hc, rfl⟩
  · exact List.mem_map.mpr ⟨z, List.mem_filter.mpr ⟨hz, by simpa using hne⟩, rfl⟩

/-- Round trip: restoring the serialized pairs of a well-formed partition
yields the same partition. -/
theorem inSameClass_restore_djsToJSON {cs : IdClasses} (hwf : ClassesWF cs)
    (x y : Nat) :
    inSameClass (restoreEquivalences (djsToJSON cs)) x y = inSameClass cs x y := by
  rw [Bool.eq_iff_iff]
  constructor
  · intro h
    rw [restoreEquivalences] at h
    refine inSameClass_foldl_sound (fun u v => inSameClass cs u v = true)
      (fun u v hu => inSameClass_symm hu)
      (fun u v w hu hv => inSameClass_trans hwf hu hv)
      (djsToJSON cs) ?_ [] ⟨by simp, List.Pairwise.nil⟩ ?_ x y h
    · intro p hp
      obtain ⟨c, hc, hp1, hp2, _⟩ := djsToJSON_pair_mem hp
      have hm : c.min?.getD 0 ∈ c := minD_mem (hwf.1 c hc) 0
      exact inSameClass_iff.mpr (Or.inr ⟨c, hc, hp1 ▸ hm, hp2⟩)
    · intro u v hu
      rcases inSameClass_iff.mp hu with rfl | ⟨c, hc, _, _⟩
      · exact inSameClass_refl _ _
      · simp at hc
  · intro h
    have hwfr : ClassesWF (restoreEquivalences (djsToJSON cs)) :=
      classesWF_restore _
    rcases inSameClass_iff.mp h with rfl | ⟨c, hc, hx, hy⟩
    · exact inSameClass_refl _ _
    · have key : ∀ z ∈ c,
          inSameClass (restoreEquivalences (djsToJSON cs)) (c.min?.getD 0) z = true := by
        intro z hz
        by_cases hzm : z = c.min?.getD 0
        · subst hzm
          exact inSameClass_refl _ _
        · have hpair := mem_djsToJSON hc hz hzm
          have := inSameClass_foldl_pairs (djsToJSON cs) []
            ⟨by simp, List.Pairwise.nil⟩ (c.min?.getD 0, z) hpair
          rw [restoreEquivalences]
          exact this
      exact inSameClass_trans hwfr (inSameClass_symm (key x hx)) (key y hy)

/-- A well-formed partition of size zero stores no classes. -/
theorem eq_nil_of_djsSize_zero {cs : IdClasses} (hwf : ClassesWF cs)
    (h : djsSize cs = 0) : cs = [] := by
  cases cs with
  | nil => rfl
  | cons c rest =>
    exfalso
    rw [djsSize] at h
    simp at h
    exact hwf.1 c (List.mem_cons_self c rest) h.1

/-- Ids of a bounded class are bounded, including the implicit singleton. -/
theorem bounded_classOfD {cs : IdClasses} (hb : ClassesBounded cs) {x : Nat}
    (hx : x < 18446744073709551616) :
    ∀ z ∈ classOfD cs x, z < 18446744073709551616 := by
  intro z hz
  rw [classOfD] at hz
  cases hc : classOf cs x with
  | none =>
    rw [hc] at hz
    simp at hz
    subst hz
    exact hx
  | some c =>
    rw [hc] at hz
    exact hb c (classOf_sound hc).1 z hz

/-- The representative of a bounded id in a bounded partition is bounded. -/
theorem djsGet_lt {cs : IdClasses} (hwf : ClassesWF cs) (hb : ClassesBounded cs)
    {x : Nat} (hx : x < 18446744073709551616) :
    djsGet cs x < 18446744073709551616 :=
  bounded_classOfD hb hx _ (djsGet_mem_classOfD hwf x)

/-- Merging bounded ids preserves boundedness. -/
theorem classesBounded_djsUnion {cs : IdClasses} (hb : ClassesBounded cs)
    {a b : Nat} (ha : a < 18446744073709551616) (hbb : b < 18446744073709551616) :
    ClassesBounded (djsUnion cs a b) := by
  by_cases hab : ((classOfD cs a).contains b) = true
  · rw [djsUnion_eq_of_contains hab]
    exact hb
  · rw [djsUnion_eq_of_not_contains hab]
    intro c hc z hz
    rcases List.mem_append.mp hc with hcf | hcs
    · exact hb c (List.mem_of_mem_filter hcf) z hz
    · have hc' : c = classOfD cs a ++ classOfD cs b := by simpa using hcs
      subst hc'
      rcases List.mem_append.mp hz with hza | hzb
      · exact bounded_classOfD hb ha z hza
      · exact bounded_classOfD hb hbb z hzb

/-- Folding unions of bounded pairs preserves boundedness. -/
theorem classesBounded_foldl (ps : List (Nat × Nat)) :
    ∀ cs, ClassesBounded cs →
      (∀ p ∈ ps, p.1 < 18446744073709551616 ∧ p.2 < 18446744073709551616) →
      ClassesBounded (ps.foldl (fun cs p => djsUnion cs p.1 p.2) cs) := by
  induction ps with
  | nil => exact fun cs h _ => h
  | cons p rest ih =>
    intro cs h hall
    have hp := hall p (List.mem_cons_self p rest)
    exact ih (djsUnion cs p.1 p.2) (classesBounded_djsUnion h hp.1 hp.2)
      (fun q hq => hall q (List.mem_cons_of_mem p hq))

/-- Restoring bounded pairs yields a bounded partition. -/
theorem classesBounded_restore {ps : List (Nat × Nat)}
    (hps : ∀ p ∈ ps, p.1 < 18446744073709551616 ∧ p.2 < 18446744073709551616) :
    ClassesBounded (restoreEquivalences ps) := by
  rw [restoreEquivalences]
  exact classesBounded_foldl ps [] (fun c hc => absurd hc (by simp)) hps

/-- Serialized pairs of a bounded well-formed partition are bounded. -/
theorem djsToJSON_bounded {cs : IdClasses} (hwf : ClassesWF cs)
    (hb : ClassesBounded cs) :
    ∀ p ∈ djsToJSON cs, p.1 < 18446744073709551616 ∧ p.2 < 18446744073709551616 := by
  intro p hp
  obtain ⟨c, hc, hp1, hp2, _⟩ := djsToJSON_pair_mem hp
  have hm : c.min?.getD 0 ∈ c := minD_mem (hwf.1 c hc) 0
  exact ⟨hp1 ▸ hb c hc _ hm, hb c hc _ hp2⟩

/-! ## Layer restoration lemmas -/

/-- Parsed segment ids are 64-bit values. -/
theorem parseString_toNat_lt {s : String} {u : Uint64}
    (h : Uint64.parseString s 10 = some u) : u.toNat < 18446744073709551616 := by
  rw [Uint64.parseString, if_pos rfl] at h
  cases hd : parseDecimal s with
  | none => rw [hd] at h; simp at h
  | some n =>
    rw [hd] at h
    by_cases hlt : n < 18446744073709551616
    · simp [hlt] at h
      subst h
      rw [toNat_ofNat_uint64 hlt]
      exact hlt
    · simp [hlt] at h

/-- All ids produced by `parseUint64List` are 64-bit values. -/
theorem parseUint64List_bounded :
    ∀ {l : List String} {segs : List Nat}, parseUint64List l = some segs →
      ∀ n ∈ segs, n < 18446744073709551616 := by
  intro l
  induction l with
  | nil =>
    intro segs h n hn
    rw [parseUint64List] at h
    cases h
    simp at hn
  | cons s rest ih =>
    intro segs h n hn
    rw [parseUint64List] at h
    cases hu : Uint64.parseString s 10 with
    | none => rw [hu] at h; simp at h
    | some u =>
      rw [hu] at h
      cases hr : parseUint64List rest with
      | none => rw [hr] at h; simp at h
      | some ns =>
        rw [hr] at h
        simp at h
        cases h
        rcases List.mem_cons.mp hn with rfl | hnr
        · exact parseString_toNat_lt hu
        · exact ih hr n hnr

/-- All pairs produced by `parseUint64Pairs` are 64-bit values. -/
theorem parseUint64Pairs_bounded :
    ∀ {l : List (String × String)} {ps : List (Nat × Nat)},
      parseUint64Pairs l = some ps →
      ∀ p ∈ ps, p.1 < 18446744073709551616 ∧ p.2 < 18446744073709551616 := by
  intro l
  induction l with
  | nil =>
    intro ps h p hp
    rw [parseUint64Pairs] at h
    cases h
    simp at hp
  | cons q rest ih =>
    intro ps h p hp
    rw [parseUint64Pairs] at h
    cases ha : Uint64.parseString q.1 10 with
    | none => rw [ha] at h; simp at h
    | some a =>
      rw [ha] at h
      cases hb : Uint64.parseString q.2 10 with
      | none => rw [hb] at h; simp at h
      | some b =>
        rw [hb] at h
        cases hr : parseUint64Pairs rest with
        | none => rw [hr] at h; simp at h
        | some qs =>
          rw [hr] at h
          simp at h
          cases h
          rcases List.mem_cons.mp hp with rfl | hpr
          · exact ⟨parseString_toNat_lt ha, parseString_toNat_lt hb⟩
          · exact ih hr p hpr

/-- Destructuring a successful `restoreState`. -/
theorem restoreState_eq {x : LayerJSON} {L : SegmentationUserLayer}
    (h : SegmentationUserLayer.restoreState x = some L) :
    ∃ pairs segs,
      parseUint64Pairs (x.equivalences.getD []) = some pairs ∧
      parseUint64List (x.segments.getD []) = some segs ∧
      L = { volumePath := x.source, meshPath := x.mesh,
            skeletonsPath := x.skeletons,
            selectedAlpha := x.selectedAlpha,
            notSelectedAlpha := x.notSelectedAlpha,
            objectAlpha := x.objectAlpha,
            visibleSegments := segs.foldl
              (fun vs id => insert (djsGet (restoreEquivalences pairs) id) vs) ∅,
            segmentEquivalences := restoreEquivalences pairs } := by
  rw [SegmentationUserLayer.restoreState] at h
  cases hp : parseUint64Pairs (x.equivalences.getD []) with
  | none => rw [hp] at h; simp at h
  | some pairs =>
    rw [hp] at h
    cases hs : parseUint64List (x.segments.getD []) with
    | none => rw [hs] at h; simp at h
    | some segs =>
      rw [hs] at h
      simp at h
      exact ⟨pairs, segs, rfl, rfl, h.symm⟩

/-- Folding visible-set insertions computes the image of the list. -/
theorem foldl_insert_eq_union (f : Nat → Nat) (l : List Nat) :
    ∀ acc : Finset Nat,
      l.foldl (fun vs id => insert (f id) vs) acc = acc ∪ (l.map f).toFinset := by
  induction l with
  | nil => intro acc; simp
  | cons n rest ih =>
    intro acc
    rw [List.foldl_cons, ih]
    ext z
    simp

/-- The image of the set of a list is the set of its mapped list. -/
theorem map_toFinset_eq_image (f : Nat → Nat) (l : List Nat) :
    (l.map f).toFinset = l.toFinset.image f := by
  ext z
  simp

/-- The representative of an id lies in a class of the partition iff the
id does. -/
theorem djsGet_mem_classOfD_iff {cs : IdClasses} (hwf : ClassesWF cs)
    {s id : Nat} : djsGet cs s ∈ classOfD cs id ↔ s ∈ classOfD cs id := by
  constructor
  · intro hg
    have h1 : inSameClass cs id (djsGet cs s) = true := inSameClass_of_mem_classOfD hg
    have h2 : inSameClass cs s (djsGet cs s) = true := inSameClass_djsGet hwf s
    have h3 : inSameClass cs id s = true :=
      inSameClass_trans hwf h1 (inSameClass_symm h2)
    exact mem_classOfD_of_inSameClass hwf (inSameClass_symm h3)
  · intro hs
    have h1 : inSameClass cs id s = true :=
      inSameClass_of_mem_classOfD hs
    have h2 : inSameClass cs s (djsGet cs s) = true := inSameClass_djsGet hwf s
    have h3 : inSameClass cs id (djsGet cs s) = true := inSameClass_trans hwf h1 h2
    exact mem_classOfD_of_inSameClass hwf (inSameClass_symm h3)

/-- Resolving the visible set through the equivalence map does not change
the expanded visible set. -/
theorem any_mem_image_djsGet {cs : IdClasses} (hwf : ClassesWF cs)
    (S : Finset Nat) (id : Nat) :
    ((classOfD cs id).any (fun m => decide (m ∈ S.image (djsGet cs)))) =
      ((classOfD cs id).any (fun m => decide (m ∈ S))) := by
  rw [Bool.eq_iff_iff]
  simp only [List.any_eq_true, decide_eq_true_eq, Finset.mem_image]
  constructor
  · rintro ⟨m, hm, s, hs, rfl⟩
    exact ⟨s, (djsGet_mem_classOfD_iff hwf).mp hm, hs⟩
  · rintro ⟨s, hsm, hs⟩
    exact ⟨djsGet cs s, (djsGet_mem_classOfD_iff hwf).mpr hsm, s, hs, rfl⟩

/-! ## Draw-pass lemmas -/

/-- Every draw operation the chunk loop emits comes from a GPU-resident
chunk whose representative is expanded-visible, records the representative
of its original id, and carries the color of the representative when coloring. -/
theorem drawChunks_ops_sound (ds : SegmentationDisplayState) (colorFor : Nat → Nat)
    (layer : Nat) (pickingOnly : Bool) (alpha : ℚ) :
    ∀ (chunks : List SkeletonChunkModel) (reg : PickIDRegistry) (op : DrawOp),
      op ∈ (drawChunks ds colorFor layer pickingOnly alpha chunks reg).1 →
      (⟨op.objectId, ChunkState.gpuMemory⟩ : SkeletonChunkModel) ∈ chunks ∧
      isVisibleExpanded ds (djsGet ds.segmentEquivalences op.objectId) = true ∧
      op.rootObjectId = djsGet ds.segmentEquivalences op.objectId ∧
      (pickingOnly = false → op.color = some (colorFor op.rootObjectId, alpha)) := by
  intro chunks
  induction chunks with
  | nil =>
    intro reg op h
    rw [drawChunks] at h
    simp at h
  | cons chunk rest ih =>
    obtain ⟨cid, cstate⟩ := chunk
    intro reg op h
    rw [drawChunks] at h
    by_cases hvis :
        isVisibleExpanded ds (djsGet ds.segmentEquivalences cid) = true
    · by_cases hst : cstate = ChunkState.gpuMemory
      · subst hst
        simp [hvis, PickIDRegistry.register] at h
        rcases h with rfl | hop
        · refine ⟨List.mem_cons_self _ _, by simpa using hvis, rfl, ?_⟩
          intro hpo
          simp [hpo]
        · have := ih _ op hop
          exact ⟨List.mem_cons_of_mem _ this.1, this.2.1, this.2.2.1, this.2.2.2⟩
      · simp only [hvis, if_true] at h
        rw [if_neg (by simpa using hst)] at h
        have := ih _ op h
        exact ⟨List.mem_cons_of_mem _ this.1, this.2.1, this.2.2.1, this.2.2.2⟩
    · rw [if_neg (by simpa using hvis)] at h
      have := ih _ op h
      exact ⟨List.mem_cons_of_mem _ this.1, this.2.1, this.2.2.1, this.2.2.2⟩

/-- The chunk loop only appends to the pick registry. -/
theorem drawChunks_entries_extend (ds : SegmentationDisplayState)
    (colorFor : Nat → Nat) (layer : Nat) (pickingOnly : Bool) (alpha : ℚ) :
    ∀ (chunks : List SkeletonChunkModel) (reg : PickIDRegistry),
      ∃ tail, (drawChunks ds colorFor layer pickingOnly alpha chunks reg).2.entries =
        reg.entries ++ tail := by
  intro chunks
  induction chunks with
  | nil =>
    intro reg
    exact ⟨[], by rw [drawChunks]; simp⟩
  | cons chunk rest ih =>
    intro reg
    rw [drawChunks]
    by_cases hvis :
        isVisibleExpanded ds (djsGet ds.segmentEquivalences chunk.objectId) = true
    · by_cases hst : chunk.state = ChunkState.gpuMemory
      · obtain ⟨tail, htail⟩ := ih ⟨reg.entries ++ [(layer, chunk.objectId)]⟩
        refine ⟨(layer, chunk.objectId) :: tail, ?_⟩
        simp [hvis, hst, PickIDRegistry.register, htail]
      · simp only [hvis, if_true]
        rw [if_neg (by simpa using hst)]
        exact ih reg
    · rw [if_neg (by simpa using hvis)]
      exact ih reg

/-- Looking up the index right after a prefix finds the appended element. -/
theorem getElem?_append_middle {α : Type} (l1 : List α) (p : α) (l2 : List α) :
    (l1 ++ p :: l2)[l1.length]? = some p := by
  rw [List.getElem?_append_right (le_refl _)]
  simp

/-- Every emitted pick id indexes, in the final registry, the (layer,
original object id) pair it was registered for. -/
theorem drawChunks_pick_registered (ds : SegmentationDisplayState)
    (colorFor : Nat → Nat) (layer : Nat) (pickingOnly : Bool) (alpha : ℚ) :
    ∀ (chunks : List SkeletonChunkModel) (reg : PickIDRegistry) (op : DrawOp),
      op ∈ (drawChunks ds colorFor layer pickingOnly alpha chunks reg).1 →
      (drawChunks ds colorFor layer pickingOnly alpha chunks reg).2.entries[op.pickID]? =
        some (layer, op.objectId) := by
  intro chunks
  induction chunks with
  | nil =>
    intro reg op h
    rw [drawChunks] at h
    simp at h
  | cons chunk rest ih =>
    intro reg op h
    rw [drawChunks] at h
    rw [drawChunks]
    by_cases hvis :
        isVisibleExpanded ds (djsGet ds.segmentEquivalences chunk.objectId) = true
    · by_cases hst : chunk.state = ChunkState.gpuMemory
      · simp [hvis, hst, PickIDRegistry.register] at h ⊢
        rcases h with rfl | hop
        · obtain ⟨tail, htail⟩ :=
            drawChunks_entries_extend ds colorFor layer pickingOnly alpha rest
              ⟨reg.entries ++ [(layer, chunk.objectId)]⟩
          rw [htail]
          simpa [List.append_assoc] using
            getElem?_append_middle reg.entries (layer, chunk.objectId) tail
        · exact ih _ op hop
      · simp only [hvis, if_true] at h ⊢
        rw [if_neg (by simpa using hst)] at h ⊢
        exact ih _ op h
    · rw [if_neg (by simpa using hvis)] at h ⊢
      exact ih _ op h

/-! ## Claim theorems for the identity engine and draw pass -/

/-- C1: in every skeleton draw pass, a draw operation is issued only for a
chunk in GPU memory whose representative is in the expanded visible set (a
chunk failing either test is skipped), and when the per-layer object opacity
is fully transparent (`objectAlpha ≤ 0`) no draw operation is issued at
all. -/
theorem C1_draw_gpu_resident_and_visible_only (ds : SegmentationDisplayState)
    (colorFor : Nat → Nat) (layer : Nat) (pickingOnly : Bool)
    (chunks : List SkeletonChunkModel) (reg : PickIDRegistry) :
    (ds.objectAlpha ≤ 0 →
      (SkeletonLayer.draw ds colorFor layer pickingOnly chunks reg).1 = []) ∧
    (∀ op ∈ (SkeletonLayer.draw ds colorFor layer pickingOnly chunks reg).1,
      (⟨op.objectId, ChunkState.gpuMemory⟩ : SkeletonChunkModel) ∈ chunks ∧
      isVisibleExpanded ds (djsGet ds.segmentEquivalences op.objectId) = true) := by
  constructor
  · intro hle
    have hmin : min 1 ds.objectAlpha ≤ (0 : ℚ) := le_trans (min_le_right _ _) hle
    simp [SkeletonLayer.draw, hmin]
  · intro op hop
    by_cases hα : min 1 ds.objectAlpha ≤ (0 : ℚ)
    · simp [SkeletonLayer.draw, hα] at hop
    · simp only [SkeletonLayer.draw, if_neg hα] at hop
      have h := drawChunks_ops_sound ds colorFor layer pickingOnly
        (min 1 ds.objectAlpha) chunks reg op hop
      exact ⟨h.1, h.2.1⟩

/-- C1 witness: with `objectAlpha = 0` nothing is drawn; and in a draw pass
with `objectAlpha = 1`, visible set {5} and equivalence class {5, 7}, the
operation emitted for the chunk of id 7 comes from a GPU-resident chunk
whose representative is expanded-visible. -/
theorem C1_draw_gpu_resident_and_visible_only_witness :
    (SkeletonLayer.draw ⟨0, {5}, [[5, 7]]⟩ (fun n => n) 3 false
      [⟨7, ChunkState.gpuMemory⟩] ⟨[]⟩).1 = [] ∧
    ((⟨7, ChunkState.gpuMemory⟩ : SkeletonChunkModel) ∈
        [(⟨7, ChunkState.gpuMemory⟩ : SkeletonChunkModel), ⟨7, ChunkState.queued⟩] ∧
      isVisibleExpanded ⟨1, {5}, [[5, 7]]⟩ (djsGet [[5, 7]] 7) = true) := by
  constructor
  · exact (C1_draw_gpu_resident_and_visible_only ⟨0, {5}, [[5, 7]]⟩ (fun n => n) 3
      false [⟨7, ChunkState.gpuMemory⟩] ⟨[]⟩).1 (by norm_num)
  · have h := (C1_draw_gpu_resident_and_visible_only ⟨1, {5}, [[5, 7]]⟩ (fun n => n)
      3 false [⟨7, ChunkState.gpuMemory⟩, ⟨7, ChunkState.queued⟩] ⟨[]⟩).2
      ⟨7, 5, 0, some (5, 1)⟩ (by decide)
    exact ⟨h.1, h.2⟩

/-- C8: the picking identifier of every draw operation is registered in the
pick registry for the (layer, original object id) pair — the chunk id before
equivalence resolution — while its recorded representative (used for the
color) is the resolved id, and when coloring the color is computed from the
representative. -/
theorem C8_pick_registered_for_original_id (ds : SegmentationDisplayState)
    (colorFor : Nat → Nat) (layer : Nat) (pickingOnly : Bool)
    (chunks : List SkeletonChunkModel) (reg : PickIDRegistry) :
    ∀ op ∈ (SkeletonLayer.draw ds colorFor layer pickingOnly chunks reg).1,
      (SkeletonLayer.draw ds colorFor layer pickingOnly chunks
          reg).2.entries[op.pickID]? = some (layer, op.objectId) ∧
      op.rootObjectId = djsGet ds.segmentEquivalences op.objectId ∧
      (pickingOnly = false →
        op.color = some (colorFor op.rootObjectId, min 1 ds.objectAlpha)) := by
  intro op hop
  by_cases hα : min 1 ds.objectAlpha ≤ (0 : ℚ)
  · simp [SkeletonLayer.draw, hα] at hop
  · simp only [SkeletonLayer.draw, if_neg hα] at hop ⊢
    have h := drawChunks_ops_sound ds colorFor layer pickingOnly
      (min 1 ds.objectAlpha) chunks reg op hop
    exact ⟨drawChunks_pick_registered ds colorFor layer pickingOnly
      (min 1 ds.objectAlpha) chunks reg op hop, h.2.2.1, h.2.2.2⟩

/-- C8 witness: in the concrete draw pass of the C1 scenario, pick id 0 is
registered for (layer 3, original id 7) even though the representative is
5. -/
theorem C8_pick_registered_for_original_id_witness :
    (SkeletonLayer.draw ⟨1, {5}, [[5, 7]]⟩ (fun n => n) 3 false
        [⟨7, ChunkState.gpuMemory⟩]
        ⟨[]⟩).2.entries[(⟨7, 5, 0, some (5, 1)⟩ : DrawOp).pickID]? =
      some (3, (⟨7, 5, 0, some (5, 1)⟩ : DrawOp).objectId) :=
  (C8_pick_registered_for_original_id ⟨1, {5}, [[5, 7]]⟩ (fun n => n) 3 false
    [⟨7, ChunkState.gpuMemory⟩] ⟨[]⟩ ⟨7, 5, 0, some (5, 1)⟩ (by decide)).1

/-- C7: restoring `{"segments": ["18446744073709551615"], "equivalences":
[]}` parses the maximum uint64 value exactly in radix 10 and adds exactly
that identifier to the visible-segment set. -/
theorem C7_max_uint64_parsed_exactly :
    (SegmentationUserLayer.restoreState
      { source := none, mesh := none, skeletons := none,
        selectedAlpha := 1/2, notSelectedAlpha := 0, objectAlpha := 1,
        segments := some ["18446744073709551615"], equivalences := some [] }).map
      (fun L => L.visibleSegments) = some {18446744073709551615} := by
  decide

/-- C9: performing the `select` visibility-toggle action twice on the same
currently-selected segment id returns the layer to a state whose `toJSON`
serialization equals the one before the first toggle. -/
theorem C9_select_toggle_involution (layer : SegmentationUserLayer)
    (segment : Nat) :
    ((layer.handleAction "select" (some segment)).handleAction "select"
        (some segment)).toJSON = layer.toJSON := by
  by_cases hmem : segment ∈ layer.visibleSegments
  · have hfix : (layer.handleAction "select" (some segment)).handleAction "select"
        (some segment) = layer := by
      simp [SegmentationUserLayer.handleAction, hmem, Finset.not_mem_erase,
        Finset.insert_erase hmem]
    rw [hfix]
  · have hfix : (layer.handleAction "select" (some segment)).handleAction "select"
        (some segment) = layer := by
      simp [SegmentationUserLayer.handleAction, hmem, Finset.mem_insert_self,
        Finset.erase_insert hmem]
    rw [hfix]

/-- C10: `transformPickedValue` returns null for null, passes any value
through unchanged when the equivalence map is empty, and otherwise returns
the (for numbers: widened) value itself when it is its own representative
and a `Uint64MapEntry` of the original value and its representative when it
is not; a plain number is first widened to the `Uint64` with low word `v`
and high word zero. -/
theorem C10_transformPickedValue_cases (L : SegmentationUserLayer) :
    (L.transformPickedValue .null = .null) ∧
    (djsSize L.segmentEquivalences = 0 →
      ∀ v : PickedValue, L.transformPickedValue v = embedPicked v) ∧
    (djsSize L.segmentEquivalences ≠ 0 →
      ∀ u : Uint64,
        (Uint64.equal (djsGetU L.segmentEquivalences u) u = true →
          L.transformPickedValue (.u64 u) = .u64 u) ∧
        (Uint64.equal (djsGetU L.segmentEquivalences u) u = false →
          L.transformPickedValue (.u64 u) =
            .mapEntry u (djsGetU L.segmentEquivalences u))) ∧
    (djsSize L.segmentEquivalences ≠ 0 →
      ∀ n : Nat, L.transformPickedValue (.num n) =
        L.transformPickedValue (.u64 ⟨n, 0⟩)) := by
  refine ⟨rfl, ?_, ?_, ?_⟩
  · intro hz v
    cases v with
    | null => rfl
    | num n => simp [SegmentationUserLayer.transformPickedValue, hz, embedPicked]
    | u64 u => simp [SegmentationUserLayer.transformPickedValue, hz, embedPicked]
  · intro hz u
    constructor
    · intro heq
      simp [SegmentationUserLayer.transformPickedValue, hz, heq]
    · intro hne
      simp [SegmentationUserLayer.transformPickedValue, hz, hne]
  · intro hz n
    simp [SegmentationUserLayer.transformPickedValue, hz]

/-- C10 witness: on the sample layer with equivalence class {5, 7}, null
passes through, and the picked number 7 is widened and mapped to the entry
(7, 5); a value that is its own representative passes through. -/
theorem C10_transformPickedValue_cases_witness :
    sampleRestoredLayer.transformPickedValue .null = .null ∧
    sampleRestoredLayer.transformPickedValue (.u64 ⟨7, 0⟩) =
      .mapEntry ⟨7, 0⟩ (djsGetU sampleRestoredLayer.segmentEquivalences ⟨7, 0⟩) ∧
    sampleRestoredLayer.transformPickedValue (.u64 ⟨5, 0⟩) = .u64 ⟨5, 0⟩ ∧
    sampleRestoredLayer.transformPickedValue (.num 7) =
      sampleRestoredLayer.transformPickedValue (.u64 ⟨7, 0⟩) := by
  have h := C10_transformPickedValue_cases sampleRestoredLayer
  refine ⟨h.1, (h.2.2.1 (by decide) ⟨7, 0⟩).2 (by decide),
    (h.2.2.1 (by decide) ⟨5, 0⟩).1 (by decide), h.2.2.2 (by decide) 7⟩

/-- C2 counterexample: the persisted state with `segments = ["7"]` and
`equivalences = [["5","7"]]` restores to a layer whose visible-segment set is
{5} — the representative — not the encoded set {7}, so re-serialization does
not reproduce the encoded visible-segment set. -/
theorem C2_counterexample_visible_set_not_preserved :
    (SegmentationUserLayer.restoreState samplePersistedState).map
      (fun L => L.visibleSegments) = some {5} ∧
    encodedSegments samplePersistedState = some {7} ∧
    ({5} : Finset Nat) ≠ {7} := by
  refine ⟨by decide, by decide, by decide⟩

/-- C2 (amended): restoring a schema-conforming persisted state `x` and
re-serializing preserves the equivalence partition exactly and preserves the
expanded visible set, but the visible-segment set is the set of
representatives of the segments encoded in `x` (each listed segment is
resolved through the restored equivalences before insertion), not
necessarily the encoded set itself; the re-serialized `segments` list
encodes exactly that canonicalized set. -/
theorem C2_roundtrip_canonicalizes_representatives (x : LayerJSON)
    (L : SegmentationUserLayer)
    (hL : SegmentationUserLayer.restoreState x = some L) :
    ∃ S : Finset Nat,
      encodedSegments x = some S ∧
      L.visibleSegments = S.image (djsGet L.segmentEquivalences) ∧
      encodedSegments L.toJSON = some L.visibleSegments ∧
      encodedPartition x = some L.segmentEquivalences ∧
      (∃ cs', encodedPartition L.toJSON = some cs' ∧
        ∀ a b, inSameClass cs' a b = inSameClass L.segmentEquivalences a b) ∧
      (∀ id, isVisibleExpanded L.displayState id =
        (classOfD L.segmentEquivalences id).any (fun m => decide (m ∈ S))) := by
  obtain ⟨pairs, segs, hp, hs, rfl⟩ := restoreState_eq hL
  have hwf : ClassesWF (restoreEquivalences pairs) := classesWF_restore pairs
  have hbnd : ClassesBounded (restoreEquivalences pairs) :=
    classesBounded_restore (parseUint64Pairs_bounded hp)
  have hsegb : ∀ n ∈ segs, n < 18446744073709551616 := parseUint64List_bounded hs
  have hvis : segs.foldl
      (fun vs id => insert (djsGet (restoreEquivalences pairs) id) vs) ∅ =
      segs.toFinset.image (djsGet (restoreEquivalences pairs)) := by
    rw [foldl_insert_eq_union, map_toFinset_eq_image]
    simp
  have hvisb : ∀ z ∈ segs.toFinset.image (djsGet (restoreEquivalences pairs)),
      z < 18446744073709551616 := by
    intro z hz
    rw [Finset.mem_image] at hz
    obtain ⟨s, hsm, rfl⟩ := hz
    exact djsGet_lt hwf hbnd (hsegb s (List.mem_toFinset.mp hsm))
  refine ⟨segs.toFinset, ?_, ?_, ?_, ?_, ?_, ?_⟩
  · rw [encodedSegments, hs]
    rfl
  · simpa using hvis
  · simp only [SegmentationUserLayer.toJSON, encodedSegments]
    by_cases hcard : 0 < (segs.foldl
        (fun vs id => insert (djsGet (restoreEquivalences pairs) id) vs)
          (∅ : Finset Nat)).card
    · rw [if_pos hcard]
      have hsortb : ∀ n ∈ (segs.foldl
          (fun vs id => insert (djsGet (restoreEquivalences pairs) id) vs)
            (∅ : Finset Nat)).sort (· ≤ ·), n < 18446744073709551616 := by
        intro n hn
        rw [Finset.mem_sort] at hn
        rw [hvis] at hn
        exact hvisb n hn
      simp only [Option.getD]
      rw [parseUint64List_toDecString hsortb]
      simp [Finset.sort_toFinset]
    · rw [if_neg hcard]
      have hempty : (segs.foldl
          (fun vs id => insert (djsGet (restoreEquivalences pairs) id) vs)
            (∅ : Finset Nat)) = ∅ := by
        exact Finset.card_eq_zero.mp (by omega)
      rw [hempty]
      rfl
  · rw [encodedPartition, hp]
    rfl
  · simp only [SegmentationUserLayer.toJSON, encodedPartition]
    by_cases hsz : 0 < djsSize (restoreEquivalences pairs)
    · rw [if_pos hsz]
      simp only [Option.getD]
      rw [parseUint64Pairs_toDecString (djsToJSON_bounded hwf hbnd)]
      exact ⟨restoreEquivalences (djsToJSON (restoreEquivalences pairs)), rfl,
        fun a b => inSameClass_restore_djsToJSON hwf a b⟩
    · rw [if_neg hsz]
      have hnil : restoreEquivalences pairs = [] :=
        eq_nil_of_djsSize_zero hwf (by omega)
      refine ⟨restoreEquivalences [], rfl, ?_⟩
      rw [hnil]
      intro a b
      rfl
  · intro id
    simp only [SegmentationUserLayer.displayState, isVisibleExpanded]
    rw [hvis]
    exact any_mem_image_djsGet hwf segs.toFinset id

/-- C2 witness: the amended round-trip instantiated at the sample state:
its encoded set is {7}, the restored visible set is the image {5} of {7}
under representative resolution, re-serialization encodes {5}, and the
partition {5, 7} survives both serializations. -/
theorem C2_roundtrip_canonicalizes_representatives_witness :
    ∃ S : Finset Nat,
      encodedSegments samplePersistedState = some S ∧
      sampleRestoredLayer.visibleSegments =
        S.image (djsGet sampleRestoredLayer.segmentEquivalences) ∧
      encodedSegments sampleRestoredLayer.toJSON =
        some sampleRestoredLayer.visibleSegments ∧
      encodedPartition samplePersistedState =
        some sampleRestoredLayer.segmentEquivalences ∧
      (∃ cs', encodedPartition sampleRestoredLayer.toJSON = some cs' ∧
        ∀ a b, inSameClass cs' a b =
          inSameClass sampleRestoredLayer.segmentEquivalences a b) ∧
      (∀ id, isVisibleExpanded sampleRestoredLayer.displayState id =
        (classOfD sampleRestoredLayer.segmentEquivalences id).any
          (fun m => decide (m ∈ S))) :=
  C2_roundtrip_canonicalizes_representatives samplePersistedState
    sampleRestoredLayer (by decide)

end Neuroglancer
